import Mathlib

/-!
Shallow embedding of the core of `instawow` (a World-of-Warcraft add-on
manager) as found in `src/instawow/manager.py` and
`src/instawow/exceptions.py`, together with proofs about the package
engine (install / update / remove), the batch orchestrator
(`CliManager.gather`, `SafeFuture.intercept`) and the protocol layer's
mutating-request queue (`WsManager.poll`).

Modelling conventions:
* the SQLAlchemy session is modelled as a list of persisted `Pkg` rows;
  the folder table is derived from each row's folder list (one
  `PkgFolder` row per owned path, as `models.py` persists them);
* the filesystem is modelled as the set of top-level entry names of the
  add-on directory plus a trash bin holding paths moved out of place
  (`send2trash` performs a recoverable move, never a delete);
* network effects (`resolve`, `_download_file`) are parameters: the
  resolver outcome is an `Except` value and the downloaded payload is
  represented by the archive's top-level folder set, exactly the data
  `PkgArchive` extracts from it.
-/

namespace Instawow

/-- Options attached to a persisted package; the manager reads
`options.strategy` when updating (strategy is sticky). `models.py` is not
part of the analysed sources; the fields follow the spec's data model and
their uses in `manager.py`. -/
structure PkgOptions where
  strategy : String
deriving DecidableEq, Repr

/-- Persisted record of an installed add-on (`models.py` `Pkg`; the file
itself is not among the analysed sources, so the fields are those the
manager and the spec's data model use). `folders` holds the full paths of
the owned folder rows, in insertion order. -/
structure Pkg where
  origin : String
  id : String
  slug : String
  name : String
  version : String
  file_id : String
  download_url : String
  options : PkgOptions
  folders : List String
deriving DecidableEq, Repr

/-- Row of the folder table: a path plus the owning package's composite
foreign key, as queried by `Manager.to_update.update`. -/
structure PkgFolder where
  path : String
  pkg_origin : String
  pkg_id : String
deriving DecidableEq, Repr

/-- Error half of the closed taxonomy of `src/instawow/exceptions.py`
(the `ManagerError` subclasses). -/
inductive ManagerError where
  | pkgAlreadyInstalled
  | pkgConflictsWithInstalled (conflicting : Pkg)
  | pkgConflictsWithPreexisting (folders : List String)
  | pkgNonexistent
  | pkgTemporarilyUnavailable
  | pkgNotInstalled
  | pkgOriginInvalid
  | pkgUpToDate
deriving DecidableEq, Repr

/-- Combined state the package engine mutates: the persisted rows, the
names of the top-level entries of the add-on directory, and the trash
bin's contents (paths that were moved there). -/
structure MState where
  db : List Pkg
  disk : List String
  trashBin : List String
deriving DecidableEq, Repr

/-- Path join, standing in for `config.addon_dir / f`. -/
def pjoin (dir f : String) : String := dir ++ "/" ++ f

/-- Existence test for a path of the form `addon_dir / f`
(`f.path.exists()` in `Manager.to_install.install`). -/
def pathExists (dir : String) (disk : List String) (p : String) : Bool :=
  disk.any (fun n => pjoin dir n == p)

/-- Function `trash` of `manager.py`: sends each path to the system
trash, a recoverable move performed by `send2trash`. -/
def trash (dir : String) (paths : List String) (fs : MState) : MState :=
  { fs with
    disk := fs.disk.filter (fun n => !paths.contains (pjoin dir n)),
    trashBin := fs.trashBin ++ paths }

/-- Derived folder table: one row per owned path, paired with the owning
package (the `.pkg` backref used by the conflict queries). -/
def dbFolders (db : List Pkg) : List (PkgFolder × Pkg) :=
  db.flatMap (fun p => p.folders.map (fun path => (⟨path, p.origin, p.id⟩, p)))

/-- Downloaded archive reduced to the data the manager reads from it:
the set of top-level folders it would create (`PkgArchive.root_folders`). -/
structure PkgArchive where
  root_folders : List String
deriving DecidableEq, Repr

/-- Method `PkgArchive.extract`: without `overwrite`, top-level folders
that already exist on disk abort the extraction with
`PkgConflictsWithPreexisting`; otherwise the archive contents are
extracted under the parent folder. -/
def PkgArchive.extract (a : PkgArchive) (disk : List String) (overwrite : Bool) :
    Except ManagerError (List String) :=
  if !overwrite then
    if !(a.root_folders.filter (fun f => disk.contains f)).isEmpty then
      Except.error (ManagerError.pkgConflictsWithPreexisting
        (a.root_folders.filter (fun f => disk.contains f)))
    else Except.ok (disk ++ a.root_folders.filter (fun f => !disk.contains f))
  else Except.ok (disk ++ a.root_folders.filter (fun f => !disk.contains f))

/-- Decidable equality of operation results, for evaluating concrete
runs. -/
instance {ε α : Type} [DecidableEq ε] [DecidableEq α] : DecidableEq (Except ε α) := fun a b =>
  match a, b with
  | Except.error e1, Except.error e2 =>
    if h : e1 = e2 then isTrue (by rw [h])
    else isFalse (by intro hc; injection hc; contradiction)
  | Except.error _, Except.ok _ => isFalse (fun hc => Except.noConfusion hc)
  | Except.ok _, Except.error _ => isFalse (fun hc => Except.noConfusion hc)
  | Except.ok v1, Except.ok v2 =>
    if h : v1 = v2 then isTrue (by rw [h])
    else isFalse (by intro hc; injection hc; contradiction)

namespace Manager

/-- Method `Manager.get`: retrieve a persisted package by origin and
either source-native id or slug (`Pkg.id == x | Pkg.slug == x`),
returning the first match. -/
def get (db : List Pkg) (origin id_or_slug : String) : Option Pkg :=
  db.find? (fun p => p.origin == origin && (p.id == id_or_slug || p.slug == id_or_slug))

/-- Pre-phase of `Manager.to_install`, in source order: the
already-installed check, then resolution (whose outcome, a remote
effect, is the parameter `resolveRes`); download happens after and its
payload is the archive passed to the install closure. -/
def to_install_checks (db : List Pkg) (origin id_or_slug : String)
    (resolveRes : Except ManagerError Pkg) : Except ManagerError Pkg :=
  if (get db origin id_or_slug).isSome then Except.error ManagerError.pkgAlreadyInstalled
  else resolveRes

/-- Closure `install` inside `Manager.to_install`: builds the folder
rows from the archive's top-level folders, queries the folder table for
any row with a matching path, trashes pre-existing folders when
`overwrite` is set, extracts, then persists the row. -/
def install (dir : String) (overwrite : Bool) (pkg0 : Pkg) (archive : PkgArchive)
    (st : MState) : MState × Except ManagerError Pkg :=
  let pkg := { pkg0 with folders := archive.root_folders.map (pjoin dir) }
  match (dbFolders st.db).find? (fun rp => pkg.folders.contains rp.1.path) with
  | some rp => (st, Except.error (ManagerError.pkgConflictsWithInstalled rp.2))
  | none =>
    let st1 := if overwrite then
        trash dir (pkg.folders.filter (fun p => pathExists dir st.disk p)) st
      else st
    match archive.extract st1.disk overwrite with
    | Except.error e => (st1, Except.error e)
    | Except.ok disk2 => ({ st1 with db := st1.db ++ [pkg], disk := disk2 }, Except.ok pkg)

/-- Full install operation: the pre-phase of `Manager.to_install`
followed by running the returned closure. -/
def installOp (dir origin id_or_slug : String) (overwrite : Bool)
    (resolveRes : Except ManagerError Pkg) (archive : PkgArchive) (st : MState) :
    MState × Except ManagerError Pkg :=
  match to_install_checks st.db origin id_or_slug resolveRes with
  | Except.error e => (st, Except.error e)
  | Except.ok pkg => install dir overwrite pkg archive st

/-- Pre-phase of `Manager.to_update`, in source order: look up the
current package, resolve with the currently recorded strategy
(`resolveRes` maps a strategy to the resolver's outcome), then the
up-to-date check by equality of `file_id`. -/
def to_update_checks (db : List Pkg) (origin id_or_slug : String)
    (resolveRes : String → Except ManagerError Pkg) : Except ManagerError (Pkg × Pkg) :=
  match get db origin id_or_slug with
  | none => Except.error ManagerError.pkgNotInstalled
  | some cur =>
    match resolveRes cur.options.strategy with
    | Except.error e => Except.error e
    | Except.ok newPkg =>
      if cur.file_id == newPkg.file_id then Except.error ManagerError.pkgUpToDate
      else Except.ok (cur, newPkg)

/-- Closure `update` inside `Manager.to_update`: the conflict query
filters the folder table by `path IN new_paths` AND
`pkg_origin != new.origin` AND `pkg_id != new.id`; then, inside a
`try`/`finally` whose `finally` commits the session, it trashes the
current folders, marks the current row deleted, extracts (without
`overwrite`), and marks the new row added, so a failure raised by the
extraction commits the pending deletion alone. -/
def update (dir : String) (cur new0 : Pkg) (archive : PkgArchive) (st : MState) :
    MState × Except ManagerError (Pkg × Pkg) :=
  let newPkg := { new0 with folders := archive.root_folders.map (pjoin dir) }
  match (dbFolders st.db).find? (fun rp =>
      newPkg.folders.contains rp.1.path
        && rp.1.pkg_origin != newPkg.origin && rp.1.pkg_id != newPkg.id) with
  | some rp => (st, Except.error (ManagerError.pkgConflictsWithInstalled rp.2))
  | none =>
    let st1 := trash dir cur.folders st
    let db1 := st1.db.filter (fun p => !(p.origin == cur.origin && p.id == cur.id))
    match archive.extract st1.disk false with
    | Except.error e => ({ st1 with db := db1 }, Except.error e)
    | Except.ok disk2 =>
      ({ st1 with db := db1 ++ [newPkg], disk := disk2 }, Except.ok (cur, newPkg))

/-- Full update operation: the pre-phase of `Manager.to_update`
followed by running the returned closure. -/
def updateOp (dir origin id_or_slug : String)
    (resolveRes : String → Except ManagerError Pkg) (archive : PkgArchive)
    (st : MState) : MState × Except ManagerError (Pkg × Pkg) :=
  match to_update_checks st.db origin id_or_slug resolveRes with
  | Except.error e => (st, Except.error e)
  | Except.ok cn => update dir cn.1 cn.2 archive st

/-- Method `Manager.remove`: absent package fails `PkgNotInstalled`;
otherwise every owned folder is trashed and the row is deleted. -/
def remove (dir origin id_or_slug : String) (st : MState) :
    MState × Except ManagerError Pkg :=
  match get st.db origin id_or_slug with
  | none => (st, Except.error ManagerError.pkgNotInstalled)
  | some pkg =>
    let st1 := trash dir pkg.folders st
    ({ st1 with db := st1.db.filter (fun p => !(p.origin == pkg.origin && p.id == pkg.id)) },
     Except.ok pkg)

end Manager

/-- Terminal result of awaiting one wrapped operation, as seen by
`SafeFuture.intercept`: a success value, a raised typed domain error
(`ManagerError` subclass), or any other raised fault, carried here by a
description of its cause. -/
inductive AwaitOutcome (α : Type) where
  | ok (v : α)
  | managerError (e : ManagerError)
  | unexpected (cause : String)
deriving DecidableEq, Repr

/-- Terminal value a `SafeFuture` holds after `intercept`: the result,
the typed domain error set as-is, or `InternalError` wrapping the
out-of-taxonomy cause (`exceptions.py` `InternalError.error`). -/
inductive SafeResult (α : Type) where
  | ok (v : α)
  | err (e : ManagerError)
  | internalError (cause : String)
deriving DecidableEq, Repr

/-- Method `SafeFuture.intercept`: awaits the wrapped operation and
stores its outcome in the future — the value on success, a
`ManagerError` unchanged, and for any other fault a logged
`InternalError` wrapping it — so nothing propagates past the future. -/
def SafeFuture.intercept {α : Type} : AwaitOutcome α → SafeResult α
  | AwaitOutcome.ok v => SafeResult.ok v
  | AwaitOutcome.managerError e => SafeResult.err e
  | AwaitOutcome.unexpected cause => SafeResult.internalError cause

/-- Method `CliManager.gather`: the argument is the list of
`(index, outcome)` pairs in the order the wrapped operations completed
(`asyncio.as_completed`); each completed pair is intercepted into a
future, the pairs are re-sorted (Python `sorted` on the tuples, which
orders by the distinct indices), and the futures are returned. -/
def CliManager.gather {α : Type} (completed : List (Nat × AwaitOutcome α)) :
    List (SafeResult α) :=
  ((completed.map (fun p => (p.1, SafeFuture.intercept p.2))).mergeSort
      (fun a b => decide (a.1 ≤ b.1))).map (fun p => p.2)

/-- Kind of a parsed protocol request; install, update and remove are
the mutating kinds singled out by `WsManager.poll.receiver`. -/
inductive WsRequestKind where
  | install
  | update
  | remove
  | resolve
deriving DecidableEq, Repr

/-- Whether `WsManager.poll.receiver` routes the request through the
consumer queue (`request.__class__ in (InstallRequest, UpdateRequest,
RemoveRequest)`). -/
def WsRequestKind.mutating : WsRequestKind → Bool
  | WsRequestKind.install => true
  | WsRequestKind.update => true
  | WsRequestKind.remove => true
  | WsRequestKind.resolve => false

/-- Parsed protocol request: its id and its kind. -/
structure WsRequest where
  rid : Nat
  kind : WsRequestKind
deriving DecidableEq, Repr

/-- Receiver of `WsManager.poll`: mutating requests are enqueued
(`consumer_queue.put_nowait`) in arrival order; the rest are dispatched
immediately. -/
def WsManager.consumerQueue (arrivals : List WsRequest) : List WsRequest :=
  arrivals.filter (fun r => r.kind.mutating)

/-- Scheduler state for the protocol layer's mutating pipeline:
`prepared` lists the request ids whose scheduled preparation task has
resolved the paired future, `running` is the id whose deferred mutating
step the consumer is currently executing, and `consumed` counts the
queue entries the consumer has reached. -/
structure WsState where
  prepared : List Nat
  running : Option Nat
  consumed : Nat
deriving DecidableEq, Repr

/-- Observable events of the mutating pipeline: a preparation task
completing, and the consumer starting resp. finishing one request's
deferred mutating step. -/
inductive WsEvent where
  | prepareDone (rid : Nat)
  | mutateStart (rid : Nat)
  | mutateEnd (rid : Nat)
deriving DecidableEq, Repr

/-- Modelled from the spec: `api.py` (`Request.prepare_response`,
`consume_result`) is not among the analysed sources; per the spec the
scheduled preparation performs resolve/download and the deferred
mutating step runs in the consumer. One step either completes the
preparation of any queued request (preparations finish in arbitrary
order), or lets the single consumer act: it may start the next queued
request's mutating step only when that future is resolved and no step is
running (`await asyncio.wait_for(future, None)` then `await result()`),
and must finish the running step before reaching the next entry. -/
inductive WsStep (queue : List WsRequest) : WsState → WsEvent → WsState → Prop where
  | prep (s : WsState) (r : WsRequest) (hin : r ∈ queue) (hnot : r.rid ∉ s.prepared) :
      WsStep queue s (WsEvent.prepareDone r.rid)
        { s with prepared := s.prepared ++ [r.rid] }
  | start (s : WsState) (r : WsRequest) (hnext : queue.get? s.consumed = some r)
      (hready : r.rid ∈ s.prepared) (hidle : s.running = none) :
      WsStep queue s (WsEvent.mutateStart r.rid)
        { s with running := some r.rid, consumed := s.consumed + 1 }
  | finish (s : WsState) (rid : Nat) (hrun : s.running = some rid) :
      WsStep queue s (WsEvent.mutateEnd rid) { s with running := none }

/-- Reflexive-transitive closure of `WsStep`, recording the emitted
event trace. -/
inductive WsTrace (queue : List WsRequest) : WsState → List WsEvent → WsState → Prop where
  | nil (s : WsState) : WsTrace queue s [] s
  | cons (s1 s2 s3 : WsState) (e : WsEvent) (tr : List WsEvent) :
      WsStep queue s1 e s2 → WsTrace queue s2 tr s3 → WsTrace queue s1 (e :: tr) s3

/-- Projection of a trace to the consumer's mutating-step events. -/
def mutateEvents (tr : List WsEvent) : List WsEvent :=
  tr.filter (fun e => match e with
    | WsEvent.prepareDone _ => false
    | WsEvent.mutateStart _ => true
    | WsEvent.mutateEnd _ => true)

/-- Fully serial execution of the queue in arrival order: each request's
mutating step starts and ends before the next one starts. -/
def serialSeq (queue : List WsRequest) : List WsEvent :=
  queue.flatMap (fun r => [WsEvent.mutateStart r.rid, WsEvent.mutateEnd r.rid])

/-- Serial events still owed from an intermediate scheduler state: the
end of the running step, then the untouched remainder of the queue. -/
def serialFrom (queue : List WsRequest) (s : WsState) : List WsEvent :=
  (match s.running with
   | some rid => [WsEvent.mutateEnd rid]
   | none => []) ++ serialSeq (queue.drop s.consumed)

/-! Concrete sample data for evaluating the operations. -/

/-- Sample installed package owning the folder `Molinari`. -/
def molinari : Pkg :=
  { origin := "curse", id := "20338", slug := "molinari", name := "Molinari",
    version := "80000.57-Release", file_id := "2657564",
    download_url := "https://addons.invalid/molinari.zip",
    options := { strategy := "default" }, folders := ["ad/Molinari"] }

/-- Sample installed package owning the folder `Bagnon`. -/
def bagnon : Pkg :=
  { origin := "curse", id := "2103", slug := "bagnon", name := "Bagnon",
    version := "8.0.1", file_id := "100",
    download_url := "https://addons.invalid/bagnon-8.0.1.zip",
    options := { strategy := "default" }, folders := ["ad/Bagnon"] }

/-- Resolver output for a newer build of `bagnon` (folders are assigned
from the archive during the operation). -/
def bagnonNew : Pkg :=
  { origin := "curse", id := "2103", slug := "bagnon", name := "Bagnon",
    version := "8.0.2", file_id := "101",
    download_url := "https://addons.invalid/bagnon-8.0.2.zip",
    options := { strategy := "default" }, folders := [] }

/-- Sample installed package, same origin as `bagnon`, owning the folder
`Foo`. -/
def otherPkg : Pkg :=
  { origin := "curse", id := "99", slug := "other-addon", name := "Other",
    version := "1.0", file_id := "7",
    download_url := "https://addons.invalid/other.zip",
    options := { strategy := "default" }, folders := ["ad/Foo"] }

/-- State with `bagnon` and `otherPkg` installed and their folders on
disk. -/
def conflictState : MState :=
  { db := [bagnon, otherPkg], disk := ["Bagnon", "Foo"], trashBin := [] }

/-- Resolver that returns the newer `bagnon` build for any strategy. -/
def bagnonResolve : String → Except ManagerError Pkg := fun _ => Except.ok bagnonNew

/-- Archive of the newer `bagnon` build: it now also ships the folder
`Foo`, which `otherPkg` owns. -/
def bagnonArchive : PkgArchive := { root_folders := ["Bagnon", "Foo"] }

/-- Attempted update of `bagnon` in `conflictState`. -/
def updAttempt : MState × Except ManagerError (Pkg × Pkg) :=
  Manager.updateOp "ad" "curse" "bagnon" bagnonResolve bagnonArchive conflictState

/-- Three protocol requests arriving in order: an install, a remove and
a resolve; the first two are mutating. -/
def demoArrivals : List WsRequest :=
  [⟨1, WsRequestKind.install⟩, ⟨2, WsRequestKind.remove⟩, ⟨3, WsRequestKind.resolve⟩]

/-- An interleaving in which the second mutating request's preparation
finishes before the first one's, yet the consumer still runs the
mutating steps in arrival order. -/
def demoTrace : List WsEvent :=
  [WsEvent.prepareDone 2, WsEvent.prepareDone 1,
   WsEvent.mutateStart 1, WsEvent.mutateEnd 1,
   WsEvent.mutateStart 2, WsEvent.mutateEnd 2]

/-! Theorems. -/

/-- C1: for every reference for which a package is already persisted,
install fails with `PkgAlreadyInstalled` and performs no filesystem
mutation — the already-installed check precedes resolution, download,
trash and extraction, so the outcome is the same for every resolver
outcome and every archive, and the state is returned untouched. -/
theorem install_already_installed_no_mutation
    (dir origin id_or_slug : String) (overwrite : Bool)
    (resolveRes : Except ManagerError Pkg) (archive : PkgArchive) (st : MState)
    (h : (Manager.get st.db origin id_or_slug).isSome = true) :
    Manager.installOp dir origin id_or_slug overwrite resolveRes archive st
      = (st, Except.error ManagerError.pkgAlreadyInstalled) := by
  unfold Manager.installOp Manager.to_install_checks
  rw [if_pos h]

/-- Witness for C1: installing `molinari` over itself in a one-package
state fails `PkgAlreadyInstalled` with the state unchanged, even though
the resolver outcome handed in is an error. -/
theorem install_already_installed_no_mutation_witness :
    Manager.installOp "ad" "curse" "molinari" false
        (Except.error ManagerError.pkgNonexistent) { root_folders := ["Molinari"] }
        { db := [molinari], disk := ["Molinari"], trashBin := [] }
      = ({ db := [molinari], disk := ["Molinari"], trashBin := [] },
         Except.error ManagerError.pkgAlreadyInstalled) :=
  install_already_installed_no_mutation "ad" "curse" "molinari" false
    (Except.error ManagerError.pkgNonexistent) { root_folders := ["Molinari"] }
    { db := [molinari], disk := ["Molinari"], trashBin := [] } (by decide)

/-- C2: when the archive's prospective top-level folders overlap a
folder path owned by a persisted package, install fails
`PkgConflictsWithInstalled` carrying a persisted package that owns an
overlapping path, and both the filesystem and the database are left
unchanged (the returned state is the input state: no trash, no
extraction, no row inserted). -/
theorem install_folder_conflict_fails_unchanged
    (dir origin id_or_slug : String) (overwrite : Bool)
    (pkg0 : Pkg) (archive : PkgArchive) (st : MState)
    (hget : Manager.get st.db origin id_or_slug = none)
    (hoverlap : ∃ pk ∈ st.db, ∃ path ∈ pk.folders,
      path ∈ archive.root_folders.map (pjoin dir)) :
    ∃ c, Manager.installOp dir origin id_or_slug overwrite (Except.ok pkg0) archive st
          = (st, Except.error (ManagerError.pkgConflictsWithInstalled c))
      ∧ c ∈ st.db ∧ ∃ path ∈ c.folders, path ∈ archive.root_folders.map (pjoin dir) := by
  obtain ⟨pk, hpk, path, hpath, hpathin⟩ := hoverlap
  have hrow : (⟨path, pk.origin, pk.id⟩, pk) ∈ dbFolders st.db := by
    unfold dbFolders
    exact List.mem_flatMap.mpr ⟨pk, hpk, List.mem_map.mpr ⟨path, hpath, rfl⟩⟩
  have hsome : ((dbFolders st.db).find? (fun rp =>
      (archive.root_folders.map (pjoin dir)).contains rp.1.path)).isSome = true := by
    apply List.find?_isSome.mpr
    refine ⟨_, hrow, ?_⟩
    simpa using hpathin
  obtain ⟨rp, hrp⟩ := Option.isSome_iff_exists.mp hsome
  have hmem := List.mem_of_find?_eq_some hrp
  have hpred := List.find?_some hrp
  obtain ⟨pk2, hpk2, hfold⟩ := List.mem_flatMap.mp hmem
  obtain ⟨path2, hpath2, heq⟩ := List.mem_map.mp hfold
  refine ⟨rp.2, ?_, ?_, ?_⟩
  · unfold Manager.installOp Manager.to_install_checks
    rw [hget]
    simp only [Option.isSome_none, Bool.false_eq_true, if_false]
    unfold Manager.install
    dsimp only
    rw [hrp]
  · rw [← heq]
    exact hpk2
  · refine ⟨rp.1.path, ?_, ?_⟩
    · rw [← heq]
      simpa using hpath2
    · simpa using hpred

/-- Witness for C2: installing a package whose archive ships the folder
`Molinari`, already owned by the persisted `molinari`, fails
`PkgConflictsWithInstalled` with the state unchanged. -/
theorem install_folder_conflict_fails_unchanged_witness :
    ∃ c, Manager.installOp "ad" "curse" "weakauras" false
          (Except.ok { molinari with id := "65387", slug := "weakauras" })
          { root_folders := ["Molinari"] }
          { db := [molinari], disk := ["Molinari"], trashBin := [] }
          = ({ db := [molinari], disk := ["Molinari"], trashBin := [] },
             Except.error (ManagerError.pkgConflictsWithInstalled c))
      ∧ c ∈ [molinari]
      ∧ ∃ path ∈ c.folders, path ∈ (["Molinari"].map (pjoin "ad")) :=
  install_folder_conflict_fails_unchanged "ad" "curse" "weakauras" false
    { molinari with id := "65387", slug := "weakauras" }
    { root_folders := ["Molinari"] }
    { db := [molinari], disk := ["Molinari"], trashBin := [] }
    (by decide) ⟨molinari, by decide, "ad/Molinari", by decide, by decide⟩

/-- Helper: an extraction failure is always a preexisting-folder
conflict. -/
theorem extract_error_is_preexisting (a : PkgArchive) (disk : List String)
    (overwrite : Bool) (e : ManagerError)
    (h : a.extract disk overwrite = Except.error e) :
    ∃ fs, e = ManagerError.pkgConflictsWithPreexisting fs := by
  unfold PkgArchive.extract at h
  split at h
  · split at h
    · injection h with h2
      exact ⟨_, h2.symm⟩
    · exact Except.noConfusion h
  · exact Except.noConfusion h

/-- Helper: the update closure fails only with a folder conflict, one
of the two conflict kinds. -/
theorem update_run_error_shape (dir : String) (cur new0 : Pkg) (archive : PkgArchive)
    (st : MState) (e : ManagerError)
    (h : (Manager.update dir cur new0 archive st).2 = Except.error e) :
    (∃ c, e = ManagerError.pkgConflictsWithInstalled c)
    ∨ ∃ fs, e = ManagerError.pkgConflictsWithPreexisting fs := by
  unfold Manager.update at h
  dsimp only at h
  split at h
  · dsimp only at h
    injection h with h2
    exact Or.inl ⟨_, h2.symm⟩
  · split at h
    · rename_i e0 hex
      dsimp only at h
      injection h with h2
      obtain ⟨fs, rfl⟩ := extract_error_is_preexisting _ _ _ _ hex
      exact Or.inr ⟨fs, h2.symm⟩
    · dsimp only at h
      exact Except.noConfusion h

/-- Helper: the update closure never fails `PkgUpToDate`. -/
theorem update_run_not_uptodate (dir : String) (cur new0 : Pkg)
    (archive : PkgArchive) (st : MState) :
    (Manager.update dir cur new0 archive st).2 ≠ Except.error ManagerError.pkgUpToDate := by
  intro h
  rcases update_run_error_shape dir cur new0 archive st _ h with ⟨c, hc⟩ | ⟨fs, hfs⟩
  · exact ManagerError.noConfusion hc
  · exact ManagerError.noConfusion hfs

/-- Helper: the update closure never fails `PkgNotInstalled`. -/
theorem update_run_not_notinstalled (dir : String) (cur new0 : Pkg)
    (archive : PkgArchive) (st : MState) :
    (Manager.update dir cur new0 archive st).2 ≠ Except.error ManagerError.pkgNotInstalled := by
  intro h
  rcases update_run_error_shape dir cur new0 archive st _ h with ⟨c, hc⟩ | ⟨fs, hfs⟩
  · exact ManagerError.noConfusion hc
  · exact ManagerError.noConfusion hfs

/-- C5: for an installed package whose resolution succeeds, update fails
`PkgUpToDate` exactly when the resolved package's `file_id` equals the
installed one's — plain equality on `file_id`, regardless of either
package's `version` field, which the comparison never consults. -/
theorem update_uptodate_iff_same_file_id
    (dir origin id_or_slug : String) (resolveRes : String → Except ManagerError Pkg)
    (archive : PkgArchive) (st : MState) (cur newPkg : Pkg)
    (hcur : Manager.get st.db origin id_or_slug = some cur)
    (hres : resolveRes cur.options.strategy = Except.ok newPkg) :
    (Manager.updateOp dir origin id_or_slug resolveRes archive st).2
        = Except.error ManagerError.pkgUpToDate
      ↔ cur.file_id = newPkg.file_id := by
  unfold Manager.updateOp Manager.to_update_checks
  rw [hcur]
  dsimp only
  rw [hres]
  dsimp only
  by_cases hfid : cur.file_id == newPkg.file_id
  · simp only [hfid, if_pos]
    simpa using (beq_iff_eq ..).mp hfid
  · simp only [hfid, Bool.false_eq_true, if_false]
    constructor
    · intro h
      exact absurd h (update_run_not_uptodate dir cur newPkg archive st)
    · intro h
      exact absurd ((beq_iff_eq ..).mpr h) hfid

/-- Witness for C5: a resolved build with the same `file_id` as the
installed `bagnon` but a different `version` string is reported
`PkgUpToDate`. -/
theorem update_uptodate_iff_same_file_id_witness :
    (Manager.updateOp "ad" "curse" "bagnon"
        (fun _ => Except.ok { bagnonNew with file_id := "100" }) bagnonArchive
        conflictState).2
      = Except.error ManagerError.pkgUpToDate
    ↔ bagnon.file_id = ({ bagnonNew with file_id := "100" } : Pkg).file_id :=
  update_uptodate_iff_same_file_id "ad" "curse" "bagnon"
    (fun _ => Except.ok { bagnonNew with file_id := "100" }) bagnonArchive
    conflictState bagnon { bagnonNew with file_id := "100" } (by decide) rfl

/-- C3 (evaluation at the failing input): updating `bagnon` when the new
archive also ships the folder `Foo`, owned by the persisted `otherPkg`
of the same origin, is NOT refused with `PkgConflictsWithInstalled`: the
conflict query's filter, `pkg_origin != new.origin AND pkg_id != new.id`,
excludes every folder row whose owner merely shares the origin (or the
id) with the package being replaced instead of excluding exactly the
replaced package's own rows, so the overlap goes undetected; the
operation proceeds to trash the current folders, deletes the row and
only fails at extraction with `PkgConflictsWithPreexisting`, the
database now missing `bagnon`. -/
theorem update_conflict_query_misses_same_origin :
    updAttempt.2 = Except.error (ManagerError.pkgConflictsWithPreexisting ["Foo"])
    ∧ (∀ c, updAttempt.2 ≠ Except.error (ManagerError.pkgConflictsWithInstalled c))
    ∧ updAttempt.1.db = [otherPkg]
    ∧ updAttempt.1.trashBin = ["ad/Bagnon"] := by
  have h2 : updAttempt.2 = Except.error (ManagerError.pkgConflictsWithPreexisting ["Foo"]) := by
    decide
  refine ⟨h2, ?_, by decide, by decide⟩
  intro c hcontra
  rw [h2] at hcontra
  injection hcontra with h3
  exact ManagerError.noConfusion h3

/-- C4 (counterexample): in the same update of `bagnon`, the extraction
failure occurs after the deletion of the old row was issued, and the
commit in the `finally` clause persists that deletion: the database ends
with the old row deleted and no new row inserted for the reference. -/
theorem update_failure_commits_deletion_alone :
    (∃ e, updAttempt.2 = Except.error e)
    ∧ updAttempt.1.db = [otherPkg]
    ∧ ∀ q ∈ updAttempt.1.db, ¬(q.origin = "curse" ∧ q.id = "2103") := by
  refine ⟨⟨ManagerError.pkgConflictsWithPreexisting ["Foo"], by decide⟩, by decide, ?_⟩
  decide

/-- C4 (amended): when the conflict query finds no row, the update
closure commits the deletion of the old row and the insertion of the new
row together whenever extraction succeeds; but when extraction fails,
the commit in the `finally` clause persists the pending deletion alone,
leaving the database with no row carrying the replaced package's primary
key — the reference is then simply absent, so the operation is retried
as a fresh install rather than resumed from a half-replaced record. -/
theorem update_commit_semantics (dir : String) (cur new0 : Pkg) (archive : PkgArchive)
    (st : MState)
    (hnoconf : (dbFolders st.db).find? (fun rp =>
        (archive.root_folders.map (pjoin dir)).contains rp.1.path
          && rp.1.pkg_origin != new0.origin && rp.1.pkg_id != new0.id) = none) :
    ((∃ disk2, archive.extract (trash dir cur.folders st).disk false = Except.ok disk2) →
       (Manager.update dir cur new0 archive st).1.db
         = st.db.filter (fun p => !(p.origin == cur.origin && p.id == cur.id))
             ++ [{ new0 with folders := archive.root_folders.map (pjoin dir) }])
    ∧ ((∃ e, archive.extract (trash dir cur.folders st).disk false = Except.error e) →
       (Manager.update dir cur new0 archive st).1.db
         = st.db.filter (fun p => !(p.origin == cur.origin && p.id == cur.id))) := by
  unfold Manager.update
  dsimp only [trash]
  rw [hnoconf]
  constructor
  · rintro ⟨disk2, hex⟩
    rw [hex]
  · rintro ⟨e, hex⟩
    rw [hex]

/-- Witness for the amended C4: in the failing `bagnon` scenario the
final database equals the original minus the replaced row, with no new
row. -/
theorem update_commit_semantics_witness :
    (Manager.update "ad" bagnon bagnonNew bagnonArchive conflictState).1.db
      = conflictState.db.filter
          (fun p => !(p.origin == bagnon.origin && p.id == bagnon.id)) :=
  (update_commit_semantics "ad" bagnon bagnonNew bagnonArchive conflictState
    (by decide)).2
    ⟨ManagerError.pkgConflictsWithPreexisting ["Foo"], by decide⟩

/-- C8: remove fails `PkgNotInstalled` when no package is persisted for
the reference; otherwise it succeeds, every folder owned by the package
is moved to the trash bin (appended to it — a recoverable move, so the
prior contents remain retrievable there, never a destructive delete),
the folders leave the add-on directory, and the persisted row is
deleted. -/
theorem remove_trashes_and_deletes (dir origin id_or_slug : String) (st : MState) :
    (Manager.get st.db origin id_or_slug = none →
      Manager.remove dir origin id_or_slug st = (st, Except.error ManagerError.pkgNotInstalled))
    ∧ ∀ pkg, Manager.get st.db origin id_or_slug = some pkg →
        (Manager.remove dir origin id_or_slug st).2 = Except.ok pkg
        ∧ (Manager.remove dir origin id_or_slug st).1.trashBin = st.trashBin ++ pkg.folders
        ∧ (∀ p ∈ pkg.folders, p ∈ (Manager.remove dir origin id_or_slug st).1.trashBin)
        ∧ (Manager.remove dir origin id_or_slug st).1.disk
            = st.disk.filter (fun n => !pkg.folders.contains (pjoin dir n))
        ∧ ∀ q ∈ (Manager.remove dir origin id_or_slug st).1.db,
            ¬(q.origin = pkg.origin ∧ q.id = pkg.id) := by
  constructor
  · intro h
    unfold Manager.remove
    rw [h]
  · intro pkg h
    unfold Manager.remove
    rw [h]
    dsimp only [trash]
    refine ⟨rfl, rfl, ?_, rfl, ?_⟩
    · intro p hp
      exact List.mem_append_right _ hp
    · intro q hq hpk
      have hpred := List.of_mem_filter hq
      rw [hpk.1, hpk.2] at hpred
      simp at hpred

/-- Witness for C8: removing `molinari` succeeds and its folder ends up
in the trash bin. -/
theorem remove_trashes_and_deletes_witness :
    (Manager.remove "ad" "curse" "molinari"
        { db := [molinari], disk := ["Molinari"], trashBin := [] }).2 = Except.ok molinari
    ∧ (Manager.remove "ad" "curse" "molinari"
        { db := [molinari], disk := ["Molinari"], trashBin := [] }).1.trashBin
      = [] ++ molinari.folders := by
  have h := (remove_trashes_and_deletes "ad" "curse" "molinari"
    { db := [molinari], disk := ["Molinari"], trashBin := [] }).2 molinari (by decide)
  exact ⟨h.1, h.2.1⟩

/-- C10: the database lookup matches a persisted package by origin
together with either its source-native id or its slug; consequently, for
every installed package, install fails `PkgAlreadyInstalled`, and update
and remove do not fail `PkgNotInstalled` (provided the resolver itself
does not produce that error), whether the reference names the id or the
slug. -/
theorem get_matches_id_or_slug (dir : String) (st : MState) (pkg : Pkg) (ref : String)
    (hmem : pkg ∈ st.db) (href : ref = pkg.id ∨ ref = pkg.slug) :
    (∃ q, Manager.get st.db pkg.origin ref = some q
        ∧ q.origin = pkg.origin ∧ (q.id = ref ∨ q.slug = ref))
    ∧ (∀ overwrite resolveRes archive,
        (Manager.installOp dir pkg.origin ref overwrite resolveRes archive st).2
          = Except.error ManagerError.pkgAlreadyInstalled)
    ∧ (∀ resolveRes archive,
        (∀ s, resolveRes s ≠ Except.error ManagerError.pkgNotInstalled) →
        (Manager.updateOp dir pkg.origin ref resolveRes archive st).2
          ≠ Except.error ManagerError.pkgNotInstalled)
    ∧ (Manager.remove dir pkg.origin ref st).2 ≠ Except.error ManagerError.pkgNotInstalled := by
  have hpred : (fun p : Pkg => p.origin == pkg.origin && (p.id == ref || p.slug == ref)) pkg
      = true := by
    rcases href with h | h <;> simp [h]
  have hsome : (Manager.get st.db pkg.origin ref).isSome = true := by
    unfold Manager.get
    exact List.find?_isSome.mpr ⟨pkg, hmem, hpred⟩
  obtain ⟨q, hq⟩ := Option.isSome_iff_exists.mp hsome
  have hqpred := List.find?_some (show List.find? _ st.db = some q from hq)
  simp only [Bool.and_eq_true, Bool.or_eq_true, beq_iff_eq] at hqpred
  refine ⟨⟨q, hq, hqpred.1, hqpred.2⟩, ?_, ?_, ?_⟩
  · intro overwrite resolveRes archive
    unfold Manager.installOp Manager.to_install_checks
    rw [if_pos hsome]
  · intro resolveRes archive hres
    unfold Manager.updateOp Manager.to_update_checks
    rw [hq]
    dsimp only
    cases hr : resolveRes q.options.strategy with
    | error e =>
      dsimp only
      intro hcontra
      injection hcontra with h2
      exact hres q.options.strategy (by rw [hr, h2])
    | ok newPkg =>
      dsimp only
      by_cases hfid : (q.file_id == newPkg.file_id) = true
      · rw [if_pos hfid]
        dsimp only
        intro hcontra
        injection hcontra with h2
        exact ManagerError.noConfusion h2
      · rw [if_neg hfid]
        dsimp only
        exact update_run_not_notinstalled dir q newPkg archive st
  · unfold Manager.remove
    rw [hq]
    dsimp only
    intro hcontra
    exact Except.noConfusion hcontra

/-- Witness for C10: with `molinari` installed, install referenced by
slug fails `PkgAlreadyInstalled`, and remove referenced by id does not
fail `PkgNotInstalled`. -/
theorem get_matches_id_or_slug_witness :
    (Manager.installOp "ad" "curse" "molinari" false
        (Except.error ManagerError.pkgNonexistent) { root_folders := [] }
        { db := [molinari], disk := ["Molinari"], trashBin := [] }).2
      = Except.error ManagerError.pkgAlreadyInstalled
    ∧ (Manager.remove "ad" "curse" "20338"
        { db := [molinari], disk := ["Molinari"], trashBin := [] }).2
      ≠ Except.error ManagerError.pkgNotInstalled := by
  refine ⟨?_, ?_⟩
  · exact (get_matches_id_or_slug "ad"
      { db := [molinari], disk := ["Molinari"], trashBin := [] } molinari "molinari"
      (by decide) (Or.inr (by decide))).2.1 false
      (Except.error ManagerError.pkgNonexistent) { root_folders := [] }
  · exact (get_matches_id_or_slug "ad"
      { db := [molinari], disk := ["Molinari"], trashBin := [] } molinari "20338"
      (by decide) (Or.inl (by decide))).2.2.2

/-- Helper: re-sorting the completed pairs by index recovers submission
order — for every completion order (any permutation of the enumerated
submissions) `gather` equals the in-order interception of the
submissions. -/
theorem gather_eq_map_of_perm_enum {α : Type} (outcomes : List (AwaitOutcome α))
    (completed : List (Nat × AwaitOutcome α))
    (hperm : completed.Perm outcomes.enum) :
    CliManager.gather completed = outcomes.map SafeFuture.intercept := by
  unfold CliManager.gather
  have hmapped : (completed.map (fun p => (p.1, SafeFuture.intercept p.2))).Perm
      (outcomes.enum.map (fun p => (p.1, SafeFuture.intercept p.2))) :=
    hperm.map (fun p => (p.1, SafeFuture.intercept p.2))
  have hsortperm : ((completed.map (fun p => (p.1, SafeFuture.intercept p.2))).mergeSort
        (fun a b => decide (a.1 ≤ b.1))).Perm
      (outcomes.enum.map (fun p => (p.1, SafeFuture.intercept p.2))) :=
    (List.mergeSort_perm _ _).trans hmapped
  have hsorted : List.Pairwise
      (fun a b : Nat × SafeResult α => decide (a.1 ≤ b.1) = true)
      ((completed.map (fun p => (p.1, SafeFuture.intercept p.2))).mergeSort
        (fun a b => decide (a.1 ≤ b.1))) :=
    List.sorted_mergeSort
      (by intro a b c hab hbc; simp only [decide_eq_true_eq] at *; omega)
      (by intro a b; simp only [Bool.or_eq_true, decide_eq_true_eq]; omega) _
  have hkeys_canon : (outcomes.enum.map (fun p => (p.1, SafeFuture.intercept p.2))).map
      Prod.fst = List.range outcomes.length := by
    rw [List.map_map]
    have hfst : (Prod.fst ∘ fun p : Nat × AwaitOutcome α => (p.1, SafeFuture.intercept p.2))
        = (Prod.fst : Nat × AwaitOutcome α → Nat) := rfl
    rw [hfst, List.enum_map_fst]
  have hnodup_sorted : (((completed.map (fun p => (p.1, SafeFuture.intercept p.2))).mergeSort
      (fun a b => decide (a.1 ≤ b.1))).map Prod.fst).Nodup := by
    have h1 := (hsortperm.map Prod.fst).nodup_iff
    rw [hkeys_canon] at h1
    exact h1.mpr (List.nodup_range outcomes.length)
  have hpne : List.Pairwise (fun a b : Nat × SafeResult α => a.1 ≠ b.1)
      ((completed.map (fun p => (p.1, SafeFuture.intercept p.2))).mergeSort
        (fun a b => decide (a.1 ≤ b.1))) := List.pairwise_map.mp hnodup_sorted
  have hlt : List.Pairwise (fun a b : Nat × SafeResult α => a.1 < b.1)
      ((completed.map (fun p => (p.1, SafeFuture.intercept p.2))).mergeSort
        (fun a b => decide (a.1 ≤ b.1))) := by
    refine (hsorted.and hpne).imp ?_
    intro a b hab
    have h1 := hab.1
    simp only [decide_eq_true_eq] at h1
    exact lt_of_le_of_ne h1 hab.2
  have hcanon_lt : List.Pairwise (fun a b : Nat × SafeResult α => a.1 < b.1)
      (outcomes.enum.map (fun p => (p.1, SafeFuture.intercept p.2))) := by
    have h1 := List.pairwise_lt_range outcomes.length
    rw [← hkeys_canon] at h1
    exact List.pairwise_map.mp h1
  haveI : IsAntisymm (Nat × SafeResult α) (fun a b => a.1 < b.1) :=
    ⟨fun a b h1 h2 => absurd h2 (Nat.lt_asymm h1)⟩
  have heq : (completed.map (fun p => (p.1, SafeFuture.intercept p.2))).mergeSort
        (fun a b => decide (a.1 ≤ b.1))
      = outcomes.enum.map (fun p => (p.1, SafeFuture.intercept p.2)) :=
    List.eq_of_perm_of_sorted hsortperm hlt hcanon_lt
  rw [heq, List.map_map]
  show outcomes.enum.map (SafeFuture.intercept ∘ Prod.snd) = _
  rw [← List.map_map, List.enum_map_snd]

/-- C6: for every batch of N submitted operations, the orchestrator
returns a result list of length N whose i-th element is the outcome of
the i-th submitted operation, for every possible completion order of the
operations (every permutation of the enumerated submissions). -/
theorem gather_preserves_submission_order {α : Type} (outcomes : List (AwaitOutcome α))
    (completed : List (Nat × AwaitOutcome α))
    (hperm : completed.Perm outcomes.enum) :
    (CliManager.gather completed).length = outcomes.length
    ∧ ∀ i : Nat, (hi : i < outcomes.length) →
        (CliManager.gather completed)[i]?
          = some (SafeFuture.intercept (outcomes.get ⟨i, hi⟩)) := by
  rw [gather_eq_map_of_perm_enum outcomes completed hperm]
  refine ⟨List.length_map .., ?_⟩
  intro i hi
  rw [List.getElem?_map, List.getElem?_eq_getElem hi]
  simp [List.get_eq_getElem]

/-- Witness for C6: a three-item batch completing in the order 2, 0, 1
still yields its results in submission order. -/
theorem gather_preserves_submission_order_witness :
    (CliManager.gather [(2, AwaitOutcome.unexpected "oops"), (0, AwaitOutcome.ok 7),
        (1, AwaitOutcome.managerError ManagerError.pkgUpToDate)]).length = 3
    ∧ (CliManager.gather [(2, AwaitOutcome.unexpected "oops"), (0, AwaitOutcome.ok 7),
        (1, AwaitOutcome.managerError ManagerError.pkgUpToDate)])[1]?
      = some (SafeFuture.intercept
          ([AwaitOutcome.ok 7, AwaitOutcome.managerError ManagerError.pkgUpToDate,
            AwaitOutcome.unexpected "oops"].get ⟨1, by decide⟩)) := by
  have h := gather_preserves_submission_order
    [AwaitOutcome.ok 7, AwaitOutcome.managerError ManagerError.pkgUpToDate,
     AwaitOutcome.unexpected "oops"]
    [(2, AwaitOutcome.unexpected "oops"), (0, AwaitOutcome.ok 7),
     (1, AwaitOutcome.managerError ManagerError.pkgUpToDate)]
    (by decide)
  exact ⟨h.1, h.2 1 (by decide)⟩

/-- C7: every raised failure of an individual operation becomes a
terminal outcome value in that item's own slot — a typed `ManagerError`
is stored as-is and an out-of-taxonomy fault is stored as
`InternalError` wrapping the cause — and every sibling item's result is
exactly what it would have been without the failure, so no per-item
failure aborts or alters the rest of the batch. -/
theorem intercepted_failures_stay_isolated {α : Type} (outcomes : List (AwaitOutcome α))
    (j : Nat) (hj : j < outcomes.length) (e : ManagerError) (cause : String) :
    (CliManager.gather ((outcomes.set j (AwaitOutcome.managerError e)).enum))[j]?
      = some (SafeResult.err e)
    ∧ (CliManager.gather ((outcomes.set j (AwaitOutcome.unexpected cause)).enum))[j]?
      = some (SafeResult.internalError cause)
    ∧ ∀ i, i ≠ j →
        (CliManager.gather ((outcomes.set j (AwaitOutcome.managerError e)).enum))[i]?
          = (CliManager.gather outcomes.enum)[i]?
        ∧ (CliManager.gather ((outcomes.set j (AwaitOutcome.unexpected cause)).enum))[i]?
          = (CliManager.gather outcomes.enum)[i]? := by
  rw [gather_eq_map_of_perm_enum (outcomes.set j (AwaitOutcome.managerError e)) _
      (List.Perm.refl _),
    gather_eq_map_of_perm_enum (outcomes.set j (AwaitOutcome.unexpected cause)) _
      (List.Perm.refl _),
    gather_eq_map_of_perm_enum outcomes _ (List.Perm.refl _)]
  refine ⟨?_, ?_, ?_⟩
  · rw [List.map_set, List.getElem?_set_self (by simpa using hj)]
    rfl
  · rw [List.map_set, List.getElem?_set_self (by simpa using hj)]
    rfl
  · intro i hne
    constructor
    · rw [List.map_set, List.getElem?_set_ne (Ne.symm hne)]
    · rw [List.map_set, List.getElem?_set_ne (Ne.symm hne)]

/-- Witness for C7: in a three-item batch, a typed failure injected at
index 1 appears there as `err`, an unexpected fault as `internalError`,
and index 0's result is unchanged. -/
theorem intercepted_failures_stay_isolated_witness :
    (CliManager.gather (([AwaitOutcome.ok 1, AwaitOutcome.ok 2, AwaitOutcome.ok 3].set 1
        (AwaitOutcome.managerError ManagerError.pkgNonexistent)).enum))[1]?
      = some (SafeResult.err ManagerError.pkgNonexistent)
    ∧ (CliManager.gather (([AwaitOutcome.ok 1, AwaitOutcome.ok 2, AwaitOutcome.ok 3].set 1
        (AwaitOutcome.unexpected "boom")).enum))[1]?
      = some (SafeResult.internalError "boom")
    ∧ (CliManager.gather (([AwaitOutcome.ok 1, AwaitOutcome.ok 2, AwaitOutcome.ok 3].set 1
        (AwaitOutcome.managerError ManagerError.pkgNonexistent)).enum))[0]?
      = (CliManager.gather [AwaitOutcome.ok 1, AwaitOutcome.ok 2,
          AwaitOutcome.ok 3].enum)[0]? := by
  have h := intercepted_failures_stay_isolated
    [AwaitOutcome.ok 1, AwaitOutcome.ok 2, AwaitOutcome.ok 3] 1 (by decide)
    ManagerError.pkgNonexistent "boom"
  exact ⟨h.1, h.2.1, (h.2.2 0 (by decide)).1⟩

/-- Helper: along any trace, the consumer's mutating-step events form
an initial segment of the serial events still owed from the starting
scheduler state, whatever order preparations complete in. -/
theorem ws_trace_take (queue : List WsRequest) (s s2 : WsState) (tr : List WsEvent)
    (htr : WsTrace queue s tr s2) :
    ∃ n, mutateEvents tr = (serialFrom queue s).take n := by
  induction htr with
  | nil s => exact ⟨0, by simp [mutateEvents]⟩
  | cons s1 sMid s3 e tr hstep htail ih =>
    obtain ⟨n, ihn⟩ := ih
    cases hstep with
    | prep r hin hnot =>
      refine ⟨n, ?_⟩
      have hme : mutateEvents (WsEvent.prepareDone r.rid :: tr) = mutateEvents tr := by
        simp [mutateEvents]
      have hsf : serialFrom queue { s1 with prepared := s1.prepared ++ [r.rid] }
          = serialFrom queue s1 := rfl
      rw [hme, ihn, hsf]
    | start r hnext hready hidle =>
      refine ⟨n + 1, ?_⟩
      obtain ⟨hlt, hget⟩ := List.get?_eq_some.mp hnext
      have hdrop : queue.drop s1.consumed = r :: queue.drop (s1.consumed + 1) := by
        rw [List.drop_eq_getElem_cons hlt]
        rw [← hget]
        simp [List.get_eq_getElem]
      have h1 : serialFrom queue s1
          = WsEvent.mutateStart r.rid :: WsEvent.mutateEnd r.rid
              :: serialSeq (queue.drop (s1.consumed + 1)) := by
        unfold serialFrom
        rw [hidle, hdrop]
        simp [serialSeq]
      have h2 : serialFrom queue { s1 with running := some r.rid, consumed := s1.consumed + 1 }
          = WsEvent.mutateEnd r.rid :: serialSeq (queue.drop (s1.consumed + 1)) := rfl
      have hme : mutateEvents (WsEvent.mutateStart r.rid :: tr)
          = WsEvent.mutateStart r.rid :: mutateEvents tr := by
        simp [mutateEvents]
      rw [hme, h1, List.take_succ_cons, ← h2, ← ihn]
    | finish rid hrun =>
      refine ⟨n + 1, ?_⟩
      have h1 : serialFrom queue s1
          = WsEvent.mutateEnd rid :: serialSeq (queue.drop s1.consumed) := by
        unfold serialFrom
        rw [hrun]
        rfl
      have h2 : serialFrom queue { s1 with running := none }
          = serialSeq (queue.drop s1.consumed) := rfl
      have hme : mutateEvents (WsEvent.mutateEnd rid :: tr)
          = WsEvent.mutateEnd rid :: mutateEvents tr := by
        simp [mutateEvents]
      rw [hme, h1, List.take_succ_cons, ← h2, ← ihn]

/-- Helper: positions of a request's start and end events in the fully
serial execution of the queue. -/
theorem serialSeq_getElem (queue : List WsRequest) (k : Nat) (hk : k < queue.length) :
    (serialSeq queue)[2 * k]? = some (WsEvent.mutateStart (queue.get ⟨k, hk⟩).rid)
    ∧ (serialSeq queue)[2 * k + 1]? = some (WsEvent.mutateEnd (queue.get ⟨k, hk⟩).rid) := by
  induction queue generalizing k with
  | nil => simp at hk
  | cons r rest ih =>
    have hss : serialSeq (r :: rest)
        = WsEvent.mutateStart r.rid :: WsEvent.mutateEnd r.rid :: serialSeq rest := by
      simp [serialSeq]
    cases k with
    | zero => rw [hss]; simp
    | succ k2 =>
      have hk2 : k2 < rest.length := by simpa using hk
      have h1 := ih k2 hk2
      have e1 : 2 * (k2 + 1) = 2 * k2 + 1 + 1 := by omega
      have hgets : (r :: rest).get ⟨k2 + 1, hk⟩ = rest.get ⟨k2, hk2⟩ := by
        simp [List.get_eq_getElem]
      constructor
      · rw [hss, e1, List.getElem?_cons_succ, List.getElem?_cons_succ, hgets]
        exact h1.1
      · rw [hss, e1, List.getElem?_cons_succ, List.getElem?_cons_succ, hgets]
        exact h1.2


/-- Helper: a start event can sit only at the even position of its
request in the serial execution. -/
theorem serialSeq_start_position (queue : List WsRequest) (a rid : Nat)
    (h : (serialSeq queue)[a]? = some (WsEvent.mutateStart rid)) :
    ∃ k, ∃ hk : k < queue.length, (queue.get ⟨k, hk⟩).rid = rid ∧ a = 2 * k := by
  induction queue generalizing a with
  | nil => simp [serialSeq] at h
  | cons r rest ih =>
    have hss : serialSeq (r :: rest)
        = WsEvent.mutateStart r.rid :: WsEvent.mutateEnd r.rid :: serialSeq rest := by
      simp [serialSeq]
    rw [hss] at h
    cases a with
    | zero =>
      rw [List.getElem?_cons_zero] at h
      injection h with h1
      injection h1 with h2
      exact ⟨0, by simp, by simpa using h2, rfl⟩
    | succ a1 =>
      cases a1 with
      | zero => simp at h
      | succ a2 =>
        rw [List.getElem?_cons_succ, List.getElem?_cons_succ] at h
        obtain ⟨k, hk, hr, ha⟩ := ih a2 h
        refine ⟨k + 1, by simpa using Nat.succ_lt_succ hk, ?_, by omega⟩
        simpa [List.get_eq_getElem] using hr

/-- C9: with the receiver enqueuing mutating requests in arrival order
and a single consumer draining the queue, every trace's mutating-step
events form an initial segment of the fully serial execution of the
queue in arrival order, for every order in which preparations
(resolve/download) complete; in particular, when a later mutating
request Y starts its mutating step, every earlier mutating request X has
already finished its own — X's filesystem effects are fully applied
before Y's mutating step begins. Non-mutating requests never enter the
queue. -/
theorem ws_mutating_requests_fifo (arrivals : List WsRequest)
    (hnodup : (arrivals.map WsRequest.rid).Nodup)
    (s2 : WsState) (tr : List WsEvent)
    (htr : WsTrace (WsManager.consumerQueue arrivals) ⟨[], none, 0⟩ tr s2) :
    (∃ n, mutateEvents tr = (serialSeq (WsManager.consumerQueue arrivals)).take n)
    ∧ ∀ i j : Nat, (hij : i < j) → ∀ hj : j < (WsManager.consumerQueue arrivals).length,
        ∀ a : Nat,
        (mutateEvents tr)[a]? = some (WsEvent.mutateStart
          ((WsManager.consumerQueue arrivals).get ⟨j, hj⟩).rid) →
        ∃ b, b < a ∧ (mutateEvents tr)[b]? = some (WsEvent.mutateEnd
          ((WsManager.consumerQueue arrivals).get ⟨i, Nat.lt_trans hij hj⟩).rid) := by
  have hqnodup : ((WsManager.consumerQueue arrivals).map WsRequest.rid).Nodup := by
    refine List.Nodup.sublist ?_ hnodup
    exact List.Sublist.map WsRequest.rid (List.filter_sublist arrivals)
  have hinit : serialFrom (WsManager.consumerQueue arrivals) ⟨[], none, 0⟩
      = serialSeq (WsManager.consumerQueue arrivals) := by
    unfold serialFrom
    simp
  obtain ⟨n, hπ⟩ := ws_trace_take _ _ _ _ htr
  rw [hinit] at hπ
  refine ⟨⟨n, hπ⟩, ?_⟩
  intro i j hij hj a ha
  rw [hπ] at ha ⊢
  rw [List.getElem?_take] at ha
  by_cases han : a < n
  · rw [if_pos han] at ha
    obtain ⟨k, hk, hkrid, hka⟩ := serialSeq_start_position _ a _ ha
    have halen : a < (serialSeq (WsManager.consumerQueue arrivals)).length :=
      (List.getElem?_eq_some.mp ha).1
    have hkj : k = j := by
      refine List.getElem?_inj (by simpa using hk) hqnodup ?_
      rw [List.getElem?_map, List.getElem?_map, List.getElem?_eq_getElem hk,
        List.getElem?_eq_getElem hj]
      show some ((WsManager.consumerQueue arrivals).get ⟨k, hk⟩).rid
          = some ((WsManager.consumerQueue arrivals).get ⟨j, hj⟩).rid
      rw [hkrid]
    have hb : 2 * i + 1 < a := by omega
    refine ⟨2 * i + 1, hb, ?_⟩
    rw [List.getElem?_take, if_pos (by omega)]
    exact (serialSeq_getElem _ i (Nat.lt_trans hij hj)).2
  · rw [if_neg han] at ha
    exact absurd ha (by simp)

/-- Helper: a concrete run over the demo arrivals in which the second
mutating request's preparation completes first. -/
theorem demoTrace_valid :
    WsTrace (WsManager.consumerQueue demoArrivals) ⟨[], none, 0⟩ demoTrace
      ⟨[2, 1], none, 2⟩ := by
  show WsTrace (WsManager.consumerQueue demoArrivals) ⟨[], none, 0⟩
    [WsEvent.prepareDone 2, WsEvent.prepareDone 1, WsEvent.mutateStart 1,
     WsEvent.mutateEnd 1, WsEvent.mutateStart 2, WsEvent.mutateEnd 2] ⟨[2, 1], none, 2⟩
  exact WsTrace.cons _ _ _ _ _
    (WsStep.prep ⟨[], none, 0⟩ ⟨2, WsRequestKind.remove⟩ (by decide) (by decide))
    (WsTrace.cons _ _ _ _ _
      (WsStep.prep ⟨[2], none, 0⟩ ⟨1, WsRequestKind.install⟩ (by decide) (by decide))
      (WsTrace.cons _ _ _ _ _
        (WsStep.start ⟨[2, 1], none, 0⟩ ⟨1, WsRequestKind.install⟩ (by decide) (by decide)
          rfl)
        (WsTrace.cons _ _ _ _ _
          (WsStep.finish ⟨[2, 1], some 1, 1⟩ 1 rfl)
          (WsTrace.cons _ _ _ _ _
            (WsStep.start ⟨[2, 1], none, 1⟩ ⟨2, WsRequestKind.remove⟩ (by decide)
              (by decide) rfl)
            (WsTrace.cons _ _ _ _ _
              (WsStep.finish ⟨[2, 1], some 2, 2⟩ 2 rfl)
              (WsTrace.nil _))))))

/-- Witness for C9: in the demo run, although request 2's preparation
completes before request 1's, request 2's mutating step starts only
after request 1's has ended. -/
theorem ws_mutating_requests_fifo_witness :
    ∃ b, b < 2 ∧ (mutateEvents demoTrace)[b]? = some (WsEvent.mutateEnd
      ((WsManager.consumerQueue demoArrivals).get ⟨0, by decide⟩).rid) := by
  have h := ws_mutating_requests_fifo demoArrivals (by decide) ⟨[2, 1], none, 2⟩
    demoTrace demoTrace_valid
  exact h.2 0 1 (by decide) (by decide) 2 (by decide)

end Instawow
